import Mathlib

set_option maxRecDepth 8000

/-!
Verification of the Knative eventing demo pipeline.

The development shallowly embeds the Python services of the repository:

* `EventMonitor` — the `EventAnnouncer` fan-out hub of
  `src/services/event_monitor/app.py` (history deque of capacity 200,
  per-subscriber queues of capacity 20).
* `Pipeline`   — the envelope record and the four stage services
  (content validator, data extractor, database enricher, message router),
  each with its `handle_event` HTTP-handler logic.

Strings are modelled as `List Char` (Python `str` over its characters);
character classification (`isupper`, whitespace, letter ranges) uses the
ASCII semantics, which coincides with Python's on the ASCII inputs
occurring in the services' configuration and in all concrete inputs used
below.  Python floats (validator's capitalisation ratio, router weights)
are modelled as exact rationals.
-/

/-! ### Shared string helpers (Python `str` operations, ASCII semantics) -/

/-! ### Data model: the envelope threaded through every stage -/

/-! ### Content validator (`src/services/content_validator/app.py`) -/

/-! ### Message router (`src/services/message_router/app.py`) -/

/-! ### Data extractor (`src/services/data_extractor/app.py`)

The two name patterns are matched under `re.IGNORECASE`, so the classes
`[A-Z]`/`[a-z]` both mean "ASCII letter"; `\s` is modelled by the ASCII
whitespace characters.  Since nothing follows the greedy quantifiers in
either pattern, greedy maximal-munch scanning is equivalent to Python's
backtracking search, and `re.search` tries every start position from the
left. -/

/-! ### C9 apparatus: a declarative characterisation of name extraction -/

/-! ### Database enricher (`src/services/database_enricher/app.py`)

The PostgreSQL lookup is a collaborator outside the stage logic; one
invocation has exactly three observable outcomes, modelled by
`LookupOutcome`: a row for the email, no row, or a raised exception. -/

/-- Python `list(str)` helper: the characters of a string literal. -/
def chars (s : String) : List Char := s.data

namespace EventMonitor

/-- State of `EventAnnouncer`: `listeners` is the list of per-subscriber
mailboxes (each mailbox the FIFO contents of a `queue.Queue(maxsize=20)`),
`history` the contents of `collections.deque(maxlen=200)`, oldest first. -/
structure Hub (α : Type) where
  listeners : List (List α)
  history : List α

/-- A fresh `EventAnnouncer()`: no listeners, empty history. -/
def Hub.init (α : Type) : Hub α := ⟨[], []⟩

/-- Python `collections.deque(maxlen=cap).append x`: append on the right, evicting
from the left when the capacity is exceeded. -/
def dequeAppend (cap : Nat) (h : List α) (x : α) : List α :=
  let h' := h ++ [x]
  if cap < h'.length then h'.drop (h'.length - cap) else h'

/-- Python `q.put_nowait x` on a `queue.Queue(maxsize=20)`: enqueue if there is
room, otherwise fail (`queue.Full`). -/
def put_nowait (q : List α) (x : α) : Option (List α) :=
  if q.length < 20 then some (q ++ [x]) else none

/-- The loop body of `EventAnnouncer.announce`: iterate over the listeners
(the Python code walks indices in reverse so that `del` is safe; the net
effect on the list is elementwise), attempting a non-blocking enqueue and
deleting any listener whose mailbox is full. -/
def deliverAll (msg : α) : List (List α) → List (List α)
  | [] => []
  | q :: qs =>
    match put_nowait q msg with
    | some q' => q' :: deliverAll msg qs
    | none => deliverAll msg qs

/-- Models `EventAnnouncer.announce msg`: record `msg` in the bounded history and
attempt non-blocking delivery to every listener. -/
def announce (s : Hub α) (msg : α) : Hub α :=
  { history := dequeAppend 200 s.history msg
    listeners := deliverAll msg s.listeners }

/-- Publishing a sequence of items, one `announce` per item. -/
def announceAll (s : Hub α) (msgs : List α) : Hub α :=
  msgs.foldl announce s

/-- The start of `EventAnnouncer.listen` (a generator): it first yields
every item of `list(self.history)` in order, and only afterwards creates
and registers a fresh, empty mailbox for live delivery.  The model returns
the replayed items together with the state after registration. -/
def listen (s : Hub α) : List α × Hub α :=
  (s.history, { s with listeners := s.listeners ++ [[]] })

/-- The last `cap` elements of a list (all of it when shorter). -/
def lastN (cap : Nat) (l : List α) : List α := l.drop (l.length - cap)

end EventMonitor

namespace Pipeline

/-- Lowercasing a string, `str.lower()`. -/
def toLowerList (l : List Char) : List Char := l.map Char.toLower

/-- Python `hay.startswith needle` on character lists. -/
def startsList : List Char → List Char → Bool
  | [], _ => true
  | _ :: _, [] => false
  | a :: as, b :: bs => a == b && startsList as bs

/-- Python's substring test `needle in hay`. -/
def containsSub (needle : List Char) : List Char → Bool
  | [] => startsList needle []
  | c :: t => startsList needle (c :: t) || containsSub needle t

/-- Python `message["validation"]`, written by the content validator. -/
structure ValidationResults where
  is_valid : Bool
  checks_performed : Nat
  issues_found : List (List Char)

/-- Python `message["extracted_data"]`, written by the data extractor. -/
structure ExtractedData where
  email : Option (List Char)
  customer_name : Option (List Char)
  phone : Option (List Char)
  sentiment : List Char
  is_urgent : Bool
  content_length : Nat
  word_count : Nat

/-- A row of the `customers` table as returned by `lookup_customer`. -/
structure CustomerRecord where
  customer_id : Nat
  first_name : List Char
  last_name : List Char
  company_name : List Char
  country : List Char
  phone : List Char
  account_status : List Char
  total_purchases : ℚ
  last_purchase_date : Option (List Char)

/-- Python `message["customer_data"]`: either the looked-up record (which always
carries `is_known_customer: True`) or the marker dict
`{"is_known_customer": False}`. -/
inductive CustomerData where
  | known (r : CustomerRecord)
  | unknownCustomer

/-- Python `customer_data.get("is_known_customer")` truthiness. -/
def CustomerData.is_known_customer : CustomerData → Bool
  | known _ => true
  | unknownCustomer => false

/-- Python `message["routing"]`, written by the message router. -/
structure RoutingInfo where
  category : List Char
  confidence_score : ℚ
  reason : List Char
  all_scores : List (List Char × ℚ)

/-- The JSON envelope created by the event producer and threaded through
the pipeline (absent optional fields are `none`). -/
structure Envelope where
  message_id : List Char
  content : List Char
  timestamp : List Char
  processing_stage : List Char
  validation : Option ValidationResults := none
  extracted_data : Option ExtractedData := none
  customer_data : Option CustomerData := none
  routing : Option RoutingInfo := none
  errors : List (List Char)

def SPAM_KEYWORDS : List (List Char) :=
  [chars "viagra", chars "cialis", chars "lottery", chars "winner",
   chars "congratulations", chars "click here", chars "free money",
   chars "nigerian prince", chars "inheritance", chars "crypto",
   chars "bitcoin wallet", chars "investment opportunity"]

def PROFANITY_LIST : List (List Char) :=
  [chars "spam", chars "scam", chars "hack", chars "phishing",
   chars "malware", chars "virus"]

/-- Models `ContentValidator.check_spam_keywords`: the spam keywords occurring in
the lowercased text, in list order. -/
def check_spam_keywords (text : List Char) : List (List Char) :=
  SPAM_KEYWORDS.filter (fun w => containsSub w (toLowerList text))

/-- Models `ContentValidator.check_profanity`. -/
def check_profanity (text : List Char) : List (List Char) :=
  PROFANITY_LIST.filter (fun w => containsSub w (toLowerList text))

/-- Models `ContentValidator.check_length`: bounds 10 and 10000. -/
def check_length (text : List Char) : List (List Char) :=
  (if text.length < 10 then [chars "Message too short (minimum 10 characters)"] else []) ++
  (if 10000 < text.length then [chars "Message too long (maximum 10,000 characters)"] else [])

/-- Python `sum(1 for c in text if c.isupper())`. -/
def countUpper (text : List Char) : Nat := (text.filter (fun c => c.isUpper)).length

/-- Models `ContentValidator.check_excessive_caps`: only texts longer than 20
characters are examined; the ratio divides the uppercase count by the FULL
length of the text (`len(text)`), not by the number of letters. -/
def check_excessive_caps (text : List Char) : Option (List Char) :=
  if 20 < text.length then
    if (1/2 : ℚ) < (countUpper text : ℚ) / (text.length : ℚ) then
      some (chars "Excessive capitalization detected (>50%)")
    else none
  else none

/-- Character class of the URL-body regex
`(?:[a-zA-Z]|[0-9]|[$-_@.&+]|[!*\(\),]|(?:%[0-9a-fA-F][0-9a-fA-F]))`.
The `%hh` alternative is subsumed: `%` lies in the range `$-_`, which the
alternation tries first on every repetition, so per-character membership
is exact. -/
def isUrlChar (c : Char) : Bool :=
  ('a' ≤ c && c ≤ 'z') || ('A' ≤ c && c ≤ 'Z') || ('0' ≤ c && c ≤ '9') ||
  ('$' ≤ c && c ≤ '_') || c == '@' || c == '.' || c == '&' || c == '+' ||
  c == '!' || c == '*' || c == '\\' || c == '(' || c == ')' || c == ','

/-- Strip an exact (case-sensitive) literal. -/
def stripLit : List Char → List Char → Option (List Char)
  | [], l => some l
  | _ :: _, [] => none
  | a :: as, b :: bs => if a == b then stripLit as bs else none

/-- Match `http[s]?://` at the head (the greedy optional `s`, when present,
must be followed by `://`; backtracking to the empty alternative can never
succeed because `s` is not `:`). -/
def stripScheme (l : List Char) : Option (List Char) :=
  match stripLit (chars "http") l with
  | none => none
  | some r =>
    match r with
    | 's' :: r2 => stripLit (chars "://") r2
    | _ => stripLit (chars "://") r

/-- One URL match attempt at the current position: scheme followed by a
non-empty greedy run of body characters; returns the rest of the text. -/
def matchUrlAt (l : List Char) : Option (List Char) :=
  match stripScheme l with
  | none => none
  | some r =>
    if (r.takeWhile isUrlChar).isEmpty then none else some (r.dropWhile isUrlChar)

/-- Python `re.findall` counting loop: scan left to right, non-overlapping greedy
matches.  The fuel equals the remaining length; every step consumes at
least one character, so the fuel never runs out. -/
def countUrlsFuel : Nat → List Char → Nat
  | 0, _ => 0
  | _ + 1, [] => 0
  | fuel + 1, c :: t =>
    match matchUrlAt (c :: t) with
    | some rest => 1 + countUrlsFuel fuel rest
    | none => countUrlsFuel fuel t

/-- Python `len(re.findall(url_pattern, text))`. -/
def countUrls (text : List Char) : Nat := countUrlsFuel text.length text

/-- Models `ContentValidator.check_urls`: flag more than 3 URLs. -/
def check_urls (text : List Char) : Option (List Char) :=
  let n := countUrls text
  if 3 < n then
    some (chars "Too many URLs detected (" ++ (Nat.repr n).data ++ chars ")")
  else none

/-- Python `re.search(r'(.)\1{4,}', text)`: some non-newline character (the regex
`.` does not match a newline) repeated at least 5 times consecutively. -/
def hasRepeatRun : List Char → Bool
  | c1 :: c2 :: c3 :: c4 :: c5 :: rest =>
    (c1 != '\n' && c1 == c2 && c1 == c3 && c1 == c4 && c1 == c5) ||
      hasRepeatRun (c2 :: c3 :: c4 :: c5 :: rest)
  | _ => false

/-- Models `ContentValidator.check_repeated_characters`. -/
def check_repeated_characters (text : List Char) : Option (List Char) :=
  if hasRepeatRun text then some (chars "Excessive character repetition detected") else none

/-- The message list contributed by the spam check, with its f-string. -/
def spamIssues (content : List Char) : List (List Char) :=
  let spam := check_spam_keywords content
  if spam.isEmpty then []
  else [chars "Spam keywords: " ++ List.intercalate (chars ", ") spam]

/-- The message list contributed by the profanity check. -/
def profanityIssues (content : List Char) : List (List Char) :=
  let profanity := check_profanity content
  if profanity.isEmpty then []
  else [chars "Profanity: " ++ List.intercalate (chars ", ") profanity]

/-- One `validate` block: bump `checks_performed`, and on a failing check
clear `is_valid` and accumulate the failing messages. -/
def runCheck (v : ValidationResults) (msgs : List (List Char)) : ValidationResults :=
  let v' : ValidationResults := { v with checks_performed := v.checks_performed + 1 }
  if msgs.isEmpty then v'
  else { v' with is_valid := false, issues_found := v'.issues_found ++ msgs }

/-- The six check blocks of `ContentValidator.validate`, in source order:
spam, profanity, length, capitalization, URLs, repetition. -/
def runChecks (content : List Char) : ValidationResults :=
  runCheck (runCheck (runCheck (runCheck (runCheck (runCheck
    ⟨true, 0, []⟩
    (spamIssues content))
    (profanityIssues content))
    (check_length content))
    ((check_excessive_caps content).toList))
    ((check_urls content).toList))
    ((check_repeated_characters content).toList)

/-- Models `ContentValidator.validate`: record the results, advance the stage, and
on failure append every issue to `errors` under the `validation:` prefix. -/
def validate (m : Envelope) : Envelope :=
  let results := runChecks m.content
  let m' := { m with validation := some results, processing_stage := chars "validated" }
  if results.is_valid then m'
  else { m' with errors := m'.errors ++ results.issues_found.map (fun issue => chars "validation:" ++ issue) }

/-- The validator's `handle_event`: run `validate`, then pick the outgoing
CloudEvent type by comparing the error counts before and after. -/
def validatorHandle (m : Envelope) : Envelope × List Char :=
  let processed := validate m
  if m.errors.length < processed.errors.length then
    (processed, chars "com.learning.message.validation-failed")
  else
    (processed, chars "com.learning.message.validated")

/-- A 21-character text: 10 uppercase letters followed by 11 dots.  Every
alphabetic character is uppercase, yet the code's ratio (uppercase count
over the FULL length) is 10/21 and stays below the threshold. -/
def capsCounterexample : List Char := chars "ABCDEFGHIJ..........."

def financeKeywords : List (List Char) :=
  [chars "billing", chars "invoice", chars "payment", chars "refund", chars "charge",
   chars "subscription", chars "price", chars "cost", chars "fee", chars "credit card",
   chars "bank", chars "transaction", chars "receipt", chars "balance", chars "overcharged"]

def supportKeywords : List (List Char) :=
  [chars "help", chars "issue", chars "problem", chars "error", chars "bug", chars "broken",
   chars "not working", chars "troubleshoot", chars "fix", chars "support",
   chars "assistance", chars "technical", chars "crash", chars "freeze"]

def websiteKeywords : List (List Char) :=
  [chars "login", chars "password", chars "access", chars "account", chars "sign in",
   chars "reset", chars "locked out", chars "username", chars "authentication",
   chars "forgot password", chars "cannot log in", chars "registration"]

/-- Models `MessageRouter.routing_rules`: the category map in insertion order,
each with its keyword list and weight (all `1.0` in the source). -/
def routing_rules : List (List Char × List (List Char) × ℚ) :=
  [(chars "finance", financeKeywords, 1),
   (chars "support", supportKeywords, 1),
   (chars "website", websiteKeywords, 1)]

/-- One entry of the per-category score dict: `{'score': …, 'matches': …}`
(the dict key `matches` is a reserved word in Lean, hence `kwMatches`). -/
structure ScoreEntry where
  score : ℚ
  kwMatches : Nat
deriving DecidableEq

/-- Python `sum(1 for keyword in keywords if keyword in text_lower)`. -/
def matchCount (keywords : List (List Char)) (text : List Char) : Nat :=
  (keywords.filter (fun k => containsSub k (toLowerList text))).length

/-- Models `MessageRouter.calculate_route_scores`: per category (in insertion
order) the keyword match count and the weighted score. -/
def calculate_route_scores (text : List Char) : List (List Char × ScoreEntry) :=
  routing_rules.map (fun r =>
    (r.1, ⟨(matchCount r.2.1 text : ℚ) * r.2.2, matchCount r.2.1 text⟩))

/-- Python `scores[best_category]['matches']`: dict lookup by category key (the
`none` default is unreachable — the winner is always a key of the dict). -/
def matchesOf (scores : List (List Char × ScoreEntry)) (cat : List Char) : Nat :=
  match scores.find? (fun p => p.1 == cat) with
  | some p => p.2.kwMatches
  | none => 0

/-- Models `MessageRouter.determine_route`: scan the score dict in insertion
order keeping the first strictly-greater score (`data['score'] > max_score`),
starting from `max_score = 0`, `best_category = 'unknown'`; a final score
of 0 yields the unknown result. -/
def determine_route (scores : List (List Char × ScoreEntry)) : List Char × ℚ × List Char :=
  let best := scores.foldl
    (fun acc p => if acc.2 < p.2.score then (p.1, p.2.score) else acc)
    (chars "unknown", (0 : ℚ))
  if best.2 = 0 then (chars "unknown", 0, chars "No keywords matched")
  else (best.1, best.2,
    chars "Matched " ++ (Nat.repr (matchesOf scores best.1)).data ++ chars " keywords")

/-- Models `MessageRouter.route`: classify and annotate the envelope. -/
def route (m : Envelope) : Envelope :=
  let scores := calculate_route_scores m.content
  let r := determine_route scores
  { m with
      routing := some ⟨r.1, r.2.1, r.2.2, scores.map (fun p => (p.1, p.2.score))⟩,
      processing_stage := chars "routed" }

/-- The router's `handle_event`: the outgoing CloudEvent type is generated
from the routing category alone. -/
def routerHandle (m : Envelope) : Envelope × List Char :=
  let processed := route m
  let category := match processed.routing with
    | some ri => ri.category
    | none => chars "unknown"
  let ty :=
    if category == chars "finance" then chars "com.learning.message.routed.finance"
    else if category == chars "support" then chars "com.learning.message.routed.support"
    else if category == chars "website" then chars "com.learning.message.routed.website"
    else chars "com.learning.message.routed.unknown"
  (processed, ty)

/-- Specification-side selection rule, written from the claim's words: the
category with the strictly highest score wins, a tie going to the first
category reaching the maximum in insertion order (finance, support,
website); a maximum of 0 yields `unknown` with confidence 0 and reason
"No keywords matched". -/
def specRoute (f s w : Nat) : List Char × ℚ × List Char :=
  if f = 0 ∧ s = 0 ∧ w = 0 then (chars "unknown", 0, chars "No keywords matched")
  else if s ≤ f ∧ w ≤ f then
    (chars "finance", (f : ℚ), chars "Matched " ++ (Nat.repr f).data ++ chars " keywords")
  else if f < s ∧ w ≤ s then
    (chars "support", (s : ℚ), chars "Matched " ++ (Nat.repr s).data ++ chars " keywords")
  else
    (chars "website", (w : ℚ), chars "Matched " ++ (Nat.repr w).data ++ chars " keywords")

/-- Python regex `\s` (ASCII): space, tab, newline, CR, VT, FF. -/
def isSpaceCh (c : Char) : Bool :=
  c == ' ' || c == '\t' || c == '\n' || c == '\r' || c == '\x0b' || c == '\x0c'

/-- Python regex word character `\w` (ASCII): letters, digits, underscore. -/
def isWordCh (c : Char) : Bool := c.isAlpha || c.isDigit || c == '_'

/-- Case-insensitive literal strip (the `(?:my name is|i am|this is)`
alternatives under `re.IGNORECASE`). -/
def stripCI : List Char → List Char → Option (List Char)
  | [], l => some l
  | _ :: _, [] => none
  | a :: as, b :: bs => if a.toLower == b.toLower then stripCI as bs else none

/-- One name word `[A-Z][a-z]+` under `IGNORECASE`: a letter followed by a
maximal non-empty run of letters (at least two letters in total). -/
def takeWord (l : List Char) : Option (List Char × List Char) :=
  match l with
  | [] => none
  | c :: t =>
    if c.isAlpha then
      if (t.takeWhile (fun d => d.isAlpha)).isEmpty then none
      else some (c :: t.takeWhile (fun d => d.isAlpha), t.dropWhile (fun d => d.isAlpha))
    else none

/-- Regex `\s+`: a maximal non-empty whitespace run. -/
def takeSpaces (l : List Char) : Option (List Char × List Char) :=
  match l with
  | [] => none
  | c :: t =>
    if isSpaceCh c then some (c :: t.takeWhile isSpaceCh, t.dropWhile isSpaceCh)
    else none

/-- The greedy tail `(?:\s+[A-Z][a-z]+)*`: keep absorbing
whitespace-then-word groups while possible (fuel bounds the recursion; it
is called with the remaining length, which suffices because every
iteration consumes at least two characters). -/
def extraWords : Nat → List Char → List Char × List Char
  | 0, l => ([], l)
  | fuel + 1, l =>
    match takeSpaces l with
    | none => ([], l)
    | some (sp, r) =>
      match takeWord r with
      | none => ([], l)
      | some (w, r2) =>
        ((sp ++ w ++ (extraWords fuel r2).1), (extraWords fuel r2).2)

/-- The introduction alternatives, tried in pattern order (at any fixed
position at most one can match, as their first letters differ). -/
def matchIntro (l : List Char) : Option (List Char) :=
  match stripCI (chars "my name is") l with
  | some r => some r
  | none =>
    match stripCI (chars "i am") l with
    | some r => some r
    | none => stripCI (chars "this is") l

/-- Pattern 1 anchored at the current position:
`(?:my name is|i am|this is)\s+([A-Z][a-z]+(?:\s+[A-Z][a-z]+)+)`; returns
`group(1)` (two or more words with the interior whitespace as matched). -/
def matchP1At (l : List Char) : Option (List Char) :=
  match matchIntro l with
  | none => none
  | some r =>
    match takeSpaces r with
    | none => none
    | some (_, r1) =>
      match takeWord r1 with
      | none => none
      | some (w1, r2) =>
        match takeSpaces r2 with
        | none => none
        | some (sp, r3) =>
          match takeWord r3 with
          | none => none
          | some (w2, r4) => some (w1 ++ sp ++ w2 ++ (extraWords r4.length r4).1)

/-- Pattern 2 anchored at the current position:
`([A-Z][a-z]+\s+[A-Z][a-z]+)`. -/
def matchP2At (l : List Char) : Option (List Char) :=
  match takeWord l with
  | none => none
  | some (w1, r1) =>
    match takeSpaces r1 with
    | none => none
    | some (sp, r2) =>
      match takeWord r2 with
      | none => none
      | some (w2, _) => some (w1 ++ sp ++ w2)

/-- Python `re.search`: try the anchored matcher at every position, leftmost
first (the final empty position included). -/
def searchName (p : List Char → Option (List Char)) : List Char → Option (List Char)
  | [] => p []
  | c :: t =>
    match p (c :: t) with
    | some g => some g
    | none => searchName p t

/-- Python `str.strip()` (whitespace on both ends). -/
def stripWs (l : List Char) : List Char :=
  ((l.dropWhile isSpaceCh).reverse.dropWhile isSpaceCh).reverse

/-- Python `str.title()` worker; the flag records whether the previous character
was a letter. -/
def titleAux : Bool → List Char → List Char
  | _, [] => []
  | prev, c :: t =>
    if c.isAlpha then (if prev then c.toLower else c.toUpper) :: titleAux true t
    else c :: titleAux false t

/-- Python `str.title()`. -/
def titleCase (l : List Char) : List Char := titleAux false l

/-- Models `DataExtractor.extract_name`: the two patterns in order, first match
wins, result `strip().title()`-ed; `None` when neither matches. -/
def extract_name (text : List Char) : Option (List Char) :=
  match searchName matchP1At text with
  | some g => some (titleCase (stripWs g))
  | none =>
    match searchName matchP2At text with
    | some g => some (titleCase (stripWs g))
    | none => none

/-- Email local-part class `[A-Za-z0-9._%+-]`. -/
def isLocalChar (c : Char) : Bool :=
  c.isAlpha || c.isDigit || c == '.' || c == '_' || c == '%' || c == '+' || c == '-'

/-- Email domain class `[A-Za-z0-9.-]`. -/
def isDomChar (c : Char) : Bool := c.isAlpha || c.isDigit || c == '.' || c == '-'

/-- Email TLD class `[A-Z|a-z]` (the literal `|` is part of the class in
the source pattern). -/
def isTldChar (c : Char) : Bool :=
  ('A' ≤ c && c ≤ 'Z') || c == '|' || ('a' ≤ c && c ≤ 'z')

/-- Regex `\b` between the previous character (none at the string start) and the
first matched character. -/
def startBoundary (prev : Option Char) (c : Char) : Bool :=
  match prev with
  | none => isWordCh c
  | some p => isWordCh p != isWordCh c

/-- Regex `\b` after the last matched character `a`, given the following
character (none at the string end). -/
def endBoundary (a : Char) (b : Option Char) : Bool :=
  match b with
  | none => isWordCh a
  | some c => isWordCh a != isWordCh c

/-- Backtracking for `[A-Z|a-z]{2,}\b`: given the text after the dot, take
the maximal TLD run and look for the longest length `j ≥ 2` whose end
satisfies `\b`. -/
def tldTry (stream : List Char) : Option Nat :=
  let T := stream.takeWhile isTldChar
  (List.range (T.length + 1)).reverse.find? (fun j =>
    decide (2 ≤ j) &&
      (match T.get? (j - 1) with
       | some a => endBoundary a (stream.get? j)
       | none => false))

/-- Backtracking for `[A-Za-z0-9.-]+\.`: the `\.` can only match inside
the maximal domain-class run `R` (the character after `R` is never a dot),
so try every dot position `k ≥ 1` in `R`, longest domain first. -/
def emailDomTry (R afterR : List Char) : Option (Nat × Nat) :=
  (List.range R.length).reverse.findSome? (fun k =>
    if 1 ≤ k ∧ R.get? k = some '.' then
      match tldTry (R.drop (k + 1) ++ afterR) with
      | some j => some (k, j)
      | none => none
    else none)

/-- One match attempt of
`\b[A-Za-z0-9._%+-]+@[A-Za-z0-9.-]+\.[A-Z|a-z]{2,}\b` at the current
position (the local part is a maximal run because `@` is not in its
class). -/
def matchEmailAt (prev : Option Char) (l : List Char) : Option (List Char) :=
  match l with
  | [] => none
  | c :: _ =>
    if startBoundary prev c then
      if (l.takeWhile isLocalChar).isEmpty then none
      else
        match l.dropWhile isLocalChar with
        | '@' :: r2 =>
          match emailDomTry (r2.takeWhile isDomChar) (r2.dropWhile isDomChar) with
          | some (k, j) =>
            some (l.takeWhile isLocalChar ++ '@' ::
              ((r2.takeWhile isDomChar).take k ++ '.' ::
                (((r2.takeWhile isDomChar).drop (k + 1) ++ r2.dropWhile isDomChar).takeWhile
                    isTldChar).take j))
          | none => none
        | _ => none
    else none

/-- Python `re.search` scan for the email pattern, tracking the previous
character for the leading `\b`. -/
def searchEmail (prev : Option Char) : List Char → Option (List Char)
  | [] => none
  | c :: t =>
    match matchEmailAt prev (c :: t) with
    | some m => some m
    | none => searchEmail (some c) t

/-- Models `DataExtractor.extract_email`. -/
def extract_email (text : List Char) : Option (List Char) := searchEmail none text

/-- Regex `\d{n}`: exactly `n` digits. -/
def takeDigits : Nat → List Char → Option (List Char × List Char)
  | 0, l => some ([], l)
  | _ + 1, [] => none
  | n + 1, c :: t =>
    if c.isDigit then
      match takeDigits n t with
      | some (ds, r) => some (c :: ds, r)
      | none => none
    else none

/-- Regex `[-.]?`: consume a separator when present (if present it must be
consumed — the empty alternative would put `-`/`.` where a digit is
required, so backtracking can never prefer it). -/
def optSep (l : List Char) : List Char × List Char :=
  match l with
  | c :: t => if c == '-' || c == '.' then ([c], t) else ([], l)
  | [] => ([], [])

/-- Phone pattern 1 at the current position:
`\b\d{3}[-.]?\d{3}[-.]?\d{4}\b`. -/
def matchPhone1At (prev : Option Char) (l : List Char) : Option (List Char) :=
  match l with
  | [] => none
  | c :: _ =>
    if startBoundary prev c then
      match takeDigits 3 l with
      | none => none
      | some (d1, r1) =>
        match takeDigits 3 (optSep r1).2 with
        | none => none
        | some (d2, r3) =>
          match takeDigits 4 (optSep r3).2 with
          | none => none
          | some (d3, r5) =>
            match r5 with
            | [] => some (d1 ++ (optSep r1).1 ++ d2 ++ (optSep r3).1 ++ d3)
            | c2 :: _ =>
              if isWordCh c2 then none
              else some (d1 ++ (optSep r1).1 ++ d2 ++ (optSep r3).1 ++ d3)
    else none

/-- Phone pattern 2 at the current position:
`\(\d{3}\)\s*\d{3}[-.]?\d{4}` (no boundary anchors). -/
def matchPhone2At (l : List Char) : Option (List Char) :=
  match l with
  | '(' :: r1 =>
    (match takeDigits 3 r1 with
     | none => none
     | some (d1, r2) =>
       match r2 with
       | ')' :: r3 =>
         (match takeDigits 3 (r3.dropWhile isSpaceCh) with
          | none => none
          | some (d2, r5) =>
            match takeDigits 4 (optSep r5).2 with
            | none => none
            | some (d3, _) =>
              some ('(' :: d1 ++ ')' :: r3.takeWhile isSpaceCh ++ d2 ++ (optSep r5).1 ++ d3))
       | _ => none)
  | _ => none

def searchPhone1 (prev : Option Char) : List Char → Option (List Char)
  | [] => none
  | c :: t =>
    match matchPhone1At prev (c :: t) with
    | some m => some m
    | none => searchPhone1 (some c) t

def searchPhone2 : List Char → Option (List Char)
  | [] => none
  | c :: t =>
    match matchPhone2At (c :: t) with
    | some m => some m
    | none => searchPhone2 t

/-- Models `DataExtractor.extract_phone`: the two US-format patterns in order. -/
def extract_phone (text : List Char) : Option (List Char) :=
  match searchPhone1 none text with
  | some m => some m
  | none => searchPhone2 text

def urgentKeywords : List (List Char) :=
  [chars "urgent", chars "asap", chars "emergency", chars "immediately",
   chars "critical", chars "help", chars "please help", chars "stuck"]

/-- Models `DataExtractor.detect_urgency`. -/
def detect_urgency (text : List Char) : Bool :=
  urgentKeywords.any (fun k => containsSub k (toLowerList text))

def positiveWords : List (List Char) :=
  [chars "happy", chars "great", chars "excellent", chars "thank",
   chars "pleased", chars "love", chars "wonderful"]

def negativeWords : List (List Char) :=
  [chars "frustrated", chars "angry", chars "disappointed", chars "terrible",
   chars "worst", chars "hate", chars "awful"]

/-- Models `DataExtractor.detect_sentiment`. -/
def detect_sentiment (text : List Char) : List Char :=
  let pos := (positiveWords.filter (fun w => containsSub w (toLowerList text))).length
  let neg := (negativeWords.filter (fun w => containsSub w (toLowerList text))).length
  if pos < neg then chars "negative"
  else if neg < pos then chars "positive"
  else chars "neutral"

/-- Python `len(content.split())`: number of maximal non-whitespace runs. -/
def splitCount : List Char → Bool → Nat
  | [], _ => 0
  | c :: t, inToken =>
    if isSpaceCh c then splitCount t false
    else (if inToken then 0 else 1) + splitCount t true

def wordCount (text : List Char) : Nat := splitCount text false

/-- Models `DataExtractor.process`: extract all fields and advance the stage. -/
def process (m : Envelope) : Envelope :=
  { m with
      extracted_data := some
        { email := extract_email m.content
          customer_name := extract_name m.content
          phone := extract_phone m.content
          sentiment := detect_sentiment m.content
          is_urgent := detect_urgency m.content
          content_length := m.content.length
          word_count := wordCount m.content }
      processing_stage := chars "extracted" }

/-- The extractor's `handle_event`: success label iff an email was found;
otherwise the bare error string "No email address found" is appended and
the incomplete label is used. -/
def extractorHandle (m : Envelope) : Envelope × List Char :=
  let processed := process m
  match processed.extracted_data.bind ExtractedData.email with
  | some _ => (processed, chars "com.learning.message.extracted")
  | none =>
    ({ processed with errors := processed.errors ++ [chars "No email address found"] },
     chars "com.learning.message.extraction-incomplete")

/-- The text contains two adjacent "name words": somewhere a run of at
least two letters, then whitespace, then another run of at least two
letters. -/
def HasWordPair (l : List Char) : Prop :=
  ∃ pre w1 sp w2 post, l = pre ++ w1 ++ sp ++ w2 ++ post ∧
    2 ≤ w1.length ∧ (∀ c ∈ w1, c.isAlpha = true) ∧
    1 ≤ sp.length ∧ (∀ c ∈ sp, isSpaceCh c = true) ∧
    2 ≤ w2.length ∧ (∀ c ∈ w2, c.isAlpha = true)

inductive LookupOutcome where
  | found (r : CustomerRecord)
  | notFound
  | dbError (msg : List Char)

/-- Models `DatabaseEnricher.enrich`: look up the extracted email.  Note that the
no-email branch returns early, before `processing_stage` is set. -/
def enrich (lk : LookupOutcome) (m : Envelope) : Envelope :=
  match m.extracted_data.bind ExtractedData.email with
  | none =>
    { m with
        errors := m.errors ++ [chars "enrichment:no-email"],
        customer_data := some CustomerData.unknownCustomer }
  | some email =>
    match lk with
    | LookupOutcome.found r =>
      { m with
          customer_data := some (CustomerData.known r),
          processing_stage := chars "enriched" }
    | LookupOutcome.notFound =>
      { m with
          customer_data := some CustomerData.unknownCustomer,
          errors := m.errors ++ [chars "enrichment:customer-not-found:" ++ email],
          processing_stage := chars "enriched" }
    | LookupOutcome.dbError e =>
      { m with
          errors := m.errors ++ [chars "enrichment:database-error:" ++ e],
          customer_data := some CustomerData.unknownCustomer,
          processing_stage := chars "enriched" }

/-- The enricher's `handle_event`: error-count delta first, then the
`is_known_customer` flag. -/
def enricherHandle (lk : LookupOutcome) (m : Envelope) : Envelope × List Char :=
  let processed := enrich lk m
  if m.errors.length < processed.errors.length then
    (processed, chars "com.learning.message.enrichment-failed")
  else if (match processed.customer_data with
           | some cd => cd.is_known_customer
           | none => false) then
    (processed, chars "com.learning.message.enriched")
  else
    (processed, chars "com.learning.message.unknown-customer")

/-- Python `message.get("routing", {}).get("category", "unknown")`. -/
def categoryOf (m : Envelope) : List Char :=
  match m.routing with
  | some ri => ri.category
  | none => chars "unknown"

/-- The router handler's category-to-event-type table. -/
def labelOfCategory (cat : List Char) : List Char :=
  if cat == chars "finance" then chars "com.learning.message.routed.finance"
  else if cat == chars "support" then chars "com.learning.message.routed.support"
  else if cat == chars "website" then chars "com.learning.message.routed.website"
  else chars "com.learning.message.routed.unknown"

/-- A sample customer row for concrete witnesses. -/
def sampleRecord : CustomerRecord :=
  { customer_id := 1, first_name := chars "Ada", last_name := chars "Lovelace",
    company_name := chars "Acme", country := chars "UK", phone := chars "555",
    account_status := chars "active", total_purchases := 0, last_purchase_date := none }

/-- An envelope that already carries an extracted email address. -/
def emailedEnvelope : Envelope :=
  { message_id := chars "m2", content := chars "mail a@b.cd here",
    timestamp := chars "t", processing_stage := chars "extracted",
    extracted_data := some
      { email := some (chars "a@b.cd"), customer_name := none, phone := none,
        sentiment := chars "neutral", is_urgent := false, content_length := 16,
        word_count := 4 },
    errors := [] }

/-- An envelope whose content is shorter than 10 characters: the validator
records exactly one issue. -/
def shortEnvelope : Envelope :=
  { message_id := chars "m3", content := chars "short", timestamp := chars "t",
    processing_stage := chars "received", errors := [] }

/-- An envelope whose content holds no email address. -/
def noEmailEnvelope : Envelope :=
  { message_id := chars "m1", content := chars "hello there friend",
    timestamp := chars "t", processing_stage := chars "received", errors := [] }

end Pipeline

/-! ### Theorems -/

/-- Auxiliary: dropping at most the first list distributes over append. -/
theorem drop_append_le (l1 l2 : List α) (n : Nat) (h : n ≤ l1.length) :
    (l1 ++ l2).drop n = l1.drop n ++ l2 := by
  induction l1 generalizing n with
  | nil =>
    have : n = 0 := by simpa using h
    simp [this]
  | cons a t ih =>
    cases n with
    | zero => simp
    | succ m =>
      simp only [List.cons_append, List.drop_succ_cons]
      exact ih m (by simpa using h)

namespace EventMonitor

theorem length_lastN (cap : Nat) (l : List α) :
    (lastN cap l).length = min l.length cap := by
  simp [lastN]; omega

theorem dequeAppend_lastN (cap : Nat) (l : List α) (x : α) :
    dequeAppend cap (lastN cap l) x = lastN cap (l ++ [x]) := by
  rcases Nat.lt_or_ge l.length cap with h | h
  · have e1 : l.length - cap = 0 := by omega
    unfold dequeAppend lastN
    rw [e1, List.drop_zero]
    rw [if_neg (by simp only [List.length_append, List.length_cons, List.length_nil]; omega)]
    have e2 : (l ++ [x]).length - cap = 0 := by
      simp only [List.length_append, List.length_cons, List.length_nil]; omega
    rw [e2, List.drop_zero]
  · have hlastlen : (lastN cap l).length = cap := by
      rw [length_lastN]; omega
    unfold dequeAppend
    rw [if_pos (by simp only [List.length_append, List.length_cons, List.length_nil,
          hlastlen]; omega)]
    have e3 : (lastN cap l ++ [x]).length - cap = 1 := by
      simp only [List.length_append, List.length_cons, List.length_nil, hlastlen]; omega
    rw [e3]
    rcases Nat.eq_zero_or_pos cap with hc | hc
    · have hnil : lastN cap l = [] := by
        apply List.eq_nil_of_length_eq_zero
        rw [hlastlen, hc]
      rw [hnil, hc]
      unfold lastN
      simp only [List.length_append, List.length_cons, List.length_nil, Nat.sub_zero]
      rw [List.drop_of_length_le (by simp)]
      simp
    · rw [drop_append_le _ _ 1 (by omega)]
      unfold lastN
      rw [List.drop_drop]
      rw [drop_append_le l [x] ((l ++ [x]).length - cap)
        (by simp only [List.length_append, List.length_cons, List.length_nil]; omega)]
      have e5 : l.length - cap + 1 = (l ++ [x]).length - cap := by
        simp only [List.length_append, List.length_cons, List.length_nil]; omega
      rw [e5]

theorem announceAll_nil_listeners (xs : List α) (l : List α) :
    announceAll ⟨[], lastN 200 l⟩ xs = ⟨[], lastN 200 (l ++ xs)⟩ := by
  induction xs generalizing l with
  | nil => simp [announceAll]
  | cons x xs ih =>
    have hstep : announce (⟨[], lastN 200 l⟩ : Hub α) x = ⟨[], lastN 200 (l ++ [x])⟩ := by
      simp [announce, deliverAll, dequeAppend_lastN]
    have h1 : announceAll (⟨[], lastN 200 l⟩ : Hub α) (x :: xs)
        = announceAll ⟨[], lastN 200 (l ++ [x])⟩ xs := by
      show announceAll (announce ⟨[], lastN 200 l⟩ x) xs = _
      rw [hstep]
    rw [h1, ih (l ++ [x]), List.append_assoc]
    rfl

/-- C3 (FanoutHub replay): publishing `xs` into a fresh hub and then
subscribing replays exactly the last `min (xs.length) 200` published items,
in publish order (a suffix of `xs`, oldest evicted first), and only then
registers one fresh empty mailbox. -/
theorem listen_replays_lastN (xs : List Nat) :
    (listen (announceAll (Hub.init Nat) xs)).1 = xs.drop (xs.length - 200) ∧
    (listen (announceAll (Hub.init Nat) xs)).1.length = min xs.length 200 ∧
    (listen (announceAll (Hub.init Nat) xs)).1 <:+ xs ∧
    (listen (announceAll (Hub.init Nat) xs)).2.listeners = [[]] ∧
    (listen (announceAll (Hub.init Nat) xs)).2.history =
      (announceAll (Hub.init Nat) xs).history := by
  have h : announceAll (Hub.init Nat) xs = ⟨[], xs.drop (xs.length - 200)⟩ := by
    have h0 := announceAll_nil_listeners (α := Nat) xs []
    simpa [Hub.init, lastN] using h0
  rw [h]
  refine ⟨rfl, ?_, ?_, rfl, rfl⟩
  · show (xs.drop (xs.length - 200)).length = min xs.length 200
    simp; omega
  · exact ⟨xs.take (xs.length - 200), List.take_append_drop _ _⟩

theorem deliverAll_eq_filter_map (msg : α) (qs : List (List α)) :
    deliverAll msg qs =
      (qs.filter (fun q => q.length < 20)).map (fun q => q ++ [msg]) := by
  induction qs with
  | nil => rfl
  | cons q qs ih =>
    by_cases h : q.length < 20
    · simp [deliverAll, put_nowait, h, ih]
    · simp [deliverAll, put_nowait, h, ih]

/-- C4 (publish backpressure): `announce` is a total function (it never
raises and never blocks); it appends the item to the history, evicting the
oldest entry exactly when the history already holds 200 items; the
surviving listeners are precisely those whose mailbox had room (each
receives the item at the tail of its mailbox, in their original order),
while every listener with a full mailbox is removed; with zero listeners
registered the listener set stays empty. -/
theorem announce_spec (s : Hub α) (msg : α) (hcap : s.history.length ≤ 200) :
    ((announce s msg).history =
       if s.history.length < 200 then s.history ++ [msg]
       else s.history.tail ++ [msg]) ∧
    (announce s msg).listeners =
      (s.listeners.filter (fun q => q.length < 20)).map (fun q => q ++ [msg]) ∧
    (s.listeners = [] → (announce s msg).listeners = []) := by
  refine ⟨?_, deliverAll_eq_filter_map msg s.listeners, ?_⟩
  · show dequeAppend 200 s.history msg = _
    unfold dequeAppend
    by_cases h : s.history.length < 200
    · rw [if_pos h,
        if_neg (by simp only [List.length_append, List.length_cons, List.length_nil]; omega)]
    · have h200 : s.history.length = 200 := by omega
      rw [if_neg h,
        if_pos (by simp only [List.length_append, List.length_cons, List.length_nil]; omega)]
      have e1 : (s.history ++ [msg]).length - 200 = 1 := by
        simp only [List.length_append, List.length_cons, List.length_nil]; omega
      rw [e1, drop_append_le _ _ 1 (by omega), List.drop_one]
  · intro h
    show deliverAll msg s.listeners = []
    rw [h]
    rfl

/-- Witness for C4 at a concrete state: one mailbox with room, one full
mailbox (20 queued items), history below capacity. -/
theorem announce_spec_witness :
    ((announce (⟨[[0], List.replicate 20 1], [5]⟩ : Hub Nat) 7).history = [5, 7]) ∧
    (announce (⟨[[0], List.replicate 20 1], [5]⟩ : Hub Nat) 7).listeners = [[0, 7]] := by
  have h := announce_spec (⟨[[0], List.replicate 20 1], [5]⟩ : Hub Nat) 7 (by decide)
  exact ⟨h.1.trans (by decide), h.2.1.trans (by decide)⟩

end EventMonitor

namespace Pipeline

theorem runCheck_issues (v : ValidationResults) (ms : List (List Char)) :
    (runCheck v ms).issues_found = v.issues_found ++ ms := by
  unfold runCheck
  by_cases h : ms.isEmpty
  · rw [if_pos h, List.isEmpty_iff.mp h, List.append_nil]
  · rw [if_neg h]

theorem runCheck_checks (v : ValidationResults) (ms : List (List Char)) :
    (runCheck v ms).checks_performed = v.checks_performed + 1 := by
  unfold runCheck
  split <;> rfl

theorem runCheck_valid (v : ValidationResults) (ms : List (List Char)) :
    (runCheck v ms).is_valid = (v.is_valid && ms.isEmpty) := by
  unfold runCheck
  by_cases h : ms.isEmpty
  · rw [if_pos h]
    simp [h]
  · rw [if_neg h]
    simp [h]

/-- C6: `validate` performs the six checks in the fixed source order,
records every failing check's message (all of them, concatenated in check
order), reports `checks_performed = 6`, and `is_valid` holds iff no check
produced a message. -/
theorem validator_six_checks (m : Envelope) :
    (validate m).validation = some (runChecks m.content) ∧
    (runChecks m.content).checks_performed = 6 ∧
    (runChecks m.content).issues_found =
      spamIssues m.content ++ profanityIssues m.content ++ check_length m.content ++
      (check_excessive_caps m.content).toList ++ (check_urls m.content).toList ++
      (check_repeated_characters m.content).toList ∧
    ((runChecks m.content).is_valid = true ↔ (runChecks m.content).issues_found = []) := by
  refine ⟨?_, ?_, ?_, ?_⟩
  · by_cases h : (runChecks m.content).is_valid = true
    · simp [validate, h]
    · simp [validate, h]
  · simp [runChecks, runCheck_checks]
  · simp [runChecks, runCheck_issues]
  · simp only [runChecks, runCheck_valid, runCheck_issues]
    simp [List.isEmpty_iff, List.append_eq_nil, and_assoc]

/-- C7 counterexample: the content is longer than 20 characters and the
fraction of uppercase letters among its ALPHABETIC characters exceeds 0.5
(here it is 1), yet `check_excessive_caps` does not flag it, because the
code divides by the full text length rather than by the letter count. -/
theorem caps_denominator_counterexample :
    20 < capsCounterexample.length ∧
    (1/2 : ℚ) < ((capsCounterexample.filter (fun c => c.isUpper)).length : ℚ) /
        ((capsCounterexample.filter (fun c => c.isAlpha)).length : ℚ) ∧
    check_excessive_caps capsCounterexample = none := by
  have e1 : (capsCounterexample.filter (fun c => c.isUpper)).length = 10 := by decide
  have e2 : (capsCounterexample.filter (fun c => c.isAlpha)).length = 10 := by decide
  have e3 : countUpper capsCounterexample = 10 := by decide
  have elen : capsCounterexample.length = 21 := by decide
  refine ⟨by rw [elen]; norm_num, ?_, ?_⟩
  · rw [e1, e2]
    norm_num
  · unfold check_excessive_caps
    rw [elen, e3]
    norm_num

/-- C7 (amended): the validator flags excessive capitalization iff the
content is longer than 20 characters and the fraction of uppercase
characters among ALL characters of the content exceeds 0.5 (equivalently,
twice the uppercase count exceeds the length); in particular content of
length at most 20 is never flagged. -/
theorem caps_flag_iff (text : List Char) :
    (check_excessive_caps text).isSome = true ↔
      (20 < text.length ∧ text.length < 2 * countUpper text) := by
  unfold check_excessive_caps
  by_cases h : 20 < text.length
  · rw [if_pos h]
    have hn : (0:ℚ) < (text.length : ℚ) := by
      have h0 : 0 < text.length := by omega
      exact_mod_cast h0
    have key : ((1/2 : ℚ) < (countUpper text : ℚ) / (text.length : ℚ)) ↔
        text.length < 2 * countUpper text := by
      rw [lt_div_iff₀ hn]
      constructor
      · intro hx
        have hq : (text.length : ℚ) < 2 * (countUpper text : ℚ) := by linarith
        exact_mod_cast hq
      · intro hx
        have hq : (text.length : ℚ) < 2 * (countUpper text : ℚ) := by exact_mod_cast hx
        linarith
    by_cases h2 : (1/2 : ℚ) < (countUpper text : ℚ) / (text.length : ℚ)
    · rw [if_pos h2]
      simpa [h] using key.mp h2
    · rw [if_neg h2]
      simp only [Option.isSome_none, Bool.false_eq_true, false_iff, not_and]
      intro _
      intro hlt
      exact h2 (key.mpr hlt)
  · rw [if_neg h]
    simp only [Option.isSome_none, Bool.false_eq_true, false_iff, not_and]
    intro hc
    exact absurd hc h

theorem detRoute_eq (f s w : Nat) :
    determine_route
      [(chars "finance", ⟨(f : ℚ) * 1, f⟩), (chars "support", ⟨(s : ℚ) * 1, s⟩),
       (chars "website", ⟨(w : ℚ) * 1, w⟩)] = specRoute f s w := by
  have bFF : (chars "finance" == chars "finance") = true := rfl
  have bFS : (chars "finance" == chars "support") = false := rfl
  have bSS : (chars "support" == chars "support") = true := rfl
  have bFW : (chars "finance" == chars "website") = false := rfl
  have bSW : (chars "support" == chars "website") = false := rfl
  have bWW : (chars "website" == chars "website") = true := rfl
  unfold determine_route specRoute matchesOf
  simp only [List.foldl, mul_one, List.find?]
  split_ifs
  all_goals try dsimp only at *
  all_goals try simp only [bFF, bFS, bSS, bFW, bSW, bWW]
  all_goals first
    | rfl
    | (exfalso; norm_cast at *; all_goals omega)

/-- C2: the scorer assigns each of the three categories, in the fixed
insertion order finance/support/website, a score equal to the number of
configured keywords (all three keyword lists are duplicate-free) occurring
as case-insensitive substrings times the category weight; selection picks
the strictly highest score with ties resolved by insertion order, and a
maximum of 0 yields `unknown` with confidence 0 and reason
"No keywords matched". -/
theorem router_scoring_spec (text : List Char) :
    calculate_route_scores text =
      [(chars "finance",
        ⟨(matchCount financeKeywords text : ℚ) * 1, matchCount financeKeywords text⟩),
       (chars "support",
        ⟨(matchCount supportKeywords text : ℚ) * 1, matchCount supportKeywords text⟩),
       (chars "website",
        ⟨(matchCount websiteKeywords text : ℚ) * 1, matchCount websiteKeywords text⟩)] ∧
    financeKeywords.Nodup ∧ supportKeywords.Nodup ∧ websiteKeywords.Nodup ∧
    determine_route (calculate_route_scores text) =
      specRoute (matchCount financeKeywords text) (matchCount supportKeywords text)
        (matchCount websiteKeywords text) :=
  ⟨rfl, by decide, by decide, by decide, detRoute_eq _ _ _⟩

theorem mem_takeWhile_pred {p : Char → Bool} :
    ∀ {l : List Char} {a : Char}, a ∈ l.takeWhile p → p a = true := by
  intro l
  induction l with
  | nil => intro a h; simp [List.takeWhile] at h
  | cons c t ih =>
    intro a h
    rw [List.takeWhile_cons] at h
    by_cases hc : p c
    · rw [if_pos hc] at h
      rcases List.mem_cons.mp h with rfl | h2
      · exact hc
      · exact ih h2
    · rw [if_neg hc] at h
      simp at h

theorem takeWhile_append_all {p : Char → Bool} (w r : List Char)
    (hw : ∀ c ∈ w, p c = true) (hr : ∀ c, r.head? = some c → p c = false) :
    (w ++ r).takeWhile p = w ∧ (w ++ r).dropWhile p = r := by
  induction w with
  | nil =>
    simp only [List.nil_append]
    cases r with
    | nil => simp
    | cons c t =>
      have hc := hr c rfl
      rw [List.takeWhile_cons, List.dropWhile_cons, if_neg (by simp [hc]), if_neg (by simp [hc])]
      exact ⟨rfl, rfl⟩
  | cons a w ih =>
    have ha : p a = true := hw a (by simp)
    have ih' := ih (fun c hc => hw c (by simp [hc]))
    rw [List.cons_append, List.takeWhile_cons, List.dropWhile_cons,
      if_pos ha, if_pos ha, ih'.1]
    exact ⟨rfl, ih'.2⟩

theorem space_not_alpha {c : Char} (h : isSpaceCh c = true) : c.isAlpha = false := by
  simp only [isSpaceCh, Bool.or_eq_true, beq_iff_eq] at h
  rcases h with ((((h | h) | h) | h) | h) | h <;> subst h <;> decide

theorem alpha_not_space {c : Char} (h : c.isAlpha = true) : isSpaceCh c = false := by
  by_contra h2
  have h3 : isSpaceCh c = true := by
    cases hx : isSpaceCh c
    · exact absurd hx h2
    · rfl
  rw [space_not_alpha h3] at h
  exact absurd h (by simp)

theorem takeWord_sound {l w r : List Char} (h : takeWord l = some (w, r)) :
    l = w ++ r ∧ 2 ≤ w.length ∧ ∀ c ∈ w, c.isAlpha = true := by
  cases l with
  | nil => simp [takeWord] at h
  | cons c t =>
    simp only [takeWord] at h
    split at h
    case isTrue hc =>
      split at h
      case isTrue => exact absurd h (by simp)
      case isFalse hne =>
        have h2 : c :: t.takeWhile (fun d => d.isAlpha) = w ∧
            t.dropWhile (fun d => d.isAlpha) = r := by
          have := h
          simp only [Option.some.injEq, Prod.mk.injEq] at this
          exact this
        obtain ⟨hw, hr⟩ := h2
        subst hw
        subst hr
        refine ⟨by simp [List.takeWhile_append_dropWhile], ?_, ?_⟩
        · have : (t.takeWhile (fun d => d.isAlpha)).length ≠ 0 := by
            intro h0
            exact hne (by simpa [List.isEmpty_iff, List.length_eq_zero] using h0)
          simp only [List.length_cons]
          omega
        · intro x hx
          rcases List.mem_cons.mp hx with rfl | h3
          · exact hc
          · exact mem_takeWhile_pred h3
    case isFalse => exact absurd h (by simp)

theorem takeSpaces_sound {l sp r : List Char} (h : takeSpaces l = some (sp, r)) :
    l = sp ++ r ∧ 1 ≤ sp.length ∧ ∀ c ∈ sp, isSpaceCh c = true := by
  cases l with
  | nil => simp [takeSpaces] at h
  | cons c t =>
    simp only [takeSpaces] at h
    split at h
    case isTrue hc =>
      have h2 : c :: t.takeWhile isSpaceCh = sp ∧ t.dropWhile isSpaceCh = r := by
        have := h
        simp only [Option.some.injEq, Prod.mk.injEq] at this
        exact this
      obtain ⟨hw, hr⟩ := h2
      subst hw
      subst hr
      refine ⟨by simp [List.takeWhile_append_dropWhile], by simp, ?_⟩
      intro x hx
      rcases List.mem_cons.mp hx with rfl | h3
      · exact hc
      · exact mem_takeWhile_pred h3
    case isFalse => exact absurd h (by simp)

theorem stripCI_sound :
    ∀ (n l r : List Char), stripCI n l = some r → ∃ pre, l = pre ++ r := by
  intro n
  induction n with
  | nil =>
    intro l r h
    simp only [stripCI, Option.some.injEq] at h
    exact ⟨[], by simp [h]⟩
  | cons a as ih =>
    intro l r h
    cases l with
    | nil => simp [stripCI] at h
    | cons b bs =>
      simp only [stripCI] at h
      split at h
      · obtain ⟨pre, hpre⟩ := ih bs r h
        exact ⟨b :: pre, by simp [hpre]⟩
      · exact absurd h (by simp)

theorem matchP2At_sound {t g : List Char} (h : matchP2At t = some g) :
    ∃ w1 sp w2 post, t = w1 ++ sp ++ w2 ++ post ∧
      2 ≤ w1.length ∧ (∀ c ∈ w1, c.isAlpha = true) ∧
      1 ≤ sp.length ∧ (∀ c ∈ sp, isSpaceCh c = true) ∧
      2 ≤ w2.length ∧ (∀ c ∈ w2, c.isAlpha = true) := by
  unfold matchP2At at h
  rcases h1 : takeWord t with _ | ⟨w1, r1⟩
  · simp [h1] at h
  simp only [h1] at h
  rcases h2 : takeSpaces r1 with _ | ⟨sp, r2⟩
  · simp [h2] at h
  simp only [h2] at h
  rcases h3 : takeWord r2 with _ | ⟨w2, r3⟩
  · simp [h3] at h
  obtain ⟨e1, hl1, ha1⟩ := takeWord_sound h1
  obtain ⟨e2, hl2, ha2⟩ := takeSpaces_sound h2
  obtain ⟨e3, hl3, ha3⟩ := takeWord_sound h3
  exact ⟨w1, sp, w2, r3, by rw [e1, e2, e3]; simp [List.append_assoc],
    hl1, ha1, hl2, ha2, hl3, ha3⟩

theorem matchP1At_sound {t g : List Char} (h : matchP1At t = some g) :
    ∃ pre w1 sp w2 post, t = pre ++ (w1 ++ sp ++ w2 ++ post) ∧
      2 ≤ w1.length ∧ (∀ c ∈ w1, c.isAlpha = true) ∧
      1 ≤ sp.length ∧ (∀ c ∈ sp, isSpaceCh c = true) ∧
      2 ≤ w2.length ∧ (∀ c ∈ w2, c.isAlpha = true) := by
  unfold matchP1At at h
  rcases h0 : matchIntro t with _ | r
  · simp [h0] at h
  simp only [h0] at h
  rcases h1 : takeSpaces r with _ | ⟨sp0, r1⟩
  · simp [h1] at h
  simp only [h1] at h
  rcases h2 : takeWord r1 with _ | ⟨w1, r2⟩
  · simp [h2] at h
  simp only [h2] at h
  rcases h3 : takeSpaces r2 with _ | ⟨sp, r3⟩
  · simp [h3] at h
  simp only [h3] at h
  rcases h4 : takeWord r3 with _ | ⟨w2, r4⟩
  · simp [h4] at h
  have hpre0 : ∃ pre0, t = pre0 ++ r := by
    unfold matchIntro at h0
    rcases hs1 : stripCI (chars "my name is") t with _ | r'
    · simp only [hs1] at h0
      rcases hs2 : stripCI (chars "i am") t with _ | r''
      · simp only [hs2] at h0
        exact stripCI_sound _ _ _ h0
      · simp only [hs2, Option.some.injEq] at h0
        subst h0
        exact stripCI_sound _ _ _ hs2
    · simp only [hs1, Option.some.injEq] at h0
      subst h0
      exact stripCI_sound _ _ _ hs1
  obtain ⟨pre0, hp0⟩ := hpre0
  obtain ⟨e1, hl1s, ha1s⟩ := takeSpaces_sound h1
  obtain ⟨e2, hl2, ha2⟩ := takeWord_sound h2
  obtain ⟨e3, hl3, ha3⟩ := takeSpaces_sound h3
  obtain ⟨e4, hl4, ha4⟩ := takeWord_sound h4
  refine ⟨pre0 ++ sp0, w1, sp, w2, r4, ?_, hl2, ha2, hl3, ha3, hl4, ha4⟩
  rw [hp0, e1, e2, e3, e4]
  simp [List.append_assoc]

theorem matchP2At_complete (w1 sp w2 post : List Char)
    (hl1 : 2 ≤ w1.length) (ha1 : ∀ c ∈ w1, c.isAlpha = true)
    (hl2 : 1 ≤ sp.length) (hsp : ∀ c ∈ sp, isSpaceCh c = true)
    (hl3 : 2 ≤ w2.length) (ha3 : ∀ c ∈ w2, c.isAlpha = true) :
    matchP2At (w1 ++ sp ++ w2 ++ post) ≠ none := by
  rw [show w1 ++ sp ++ w2 ++ post = w1 ++ (sp ++ (w2 ++ post)) by
    simp [List.append_assoc]]
  rcases w1 with _ | ⟨a, w1'⟩
  · simp at hl1
  rcases w1' with _ | ⟨a', w1''⟩
  · simp at hl1
  rcases sp with _ | ⟨s, sp'⟩
  · simp at hl2
  rcases w2 with _ | ⟨b, w2'⟩
  · simp at hl3
  rcases w2' with _ | ⟨b', w2''⟩
  · simp at hl3
  have hrun1 := takeWhile_append_all (p := fun d => d.isAlpha) (a' :: w1'')
    ((s :: sp') ++ ((b :: b' :: w2'') ++ post))
    (fun c hc => ha1 c (by simp [List.mem_cons] at hc ⊢; tauto))
    (by
      intro c hc
      have hcs : s = c := by simpa using hc
      subst hcs
      exact space_not_alpha (hsp s (by simp)))
  have hrun2 := takeWhile_append_all (p := isSpaceCh) sp' ((b :: b' :: w2'') ++ post)
    (fun c hc => hsp c (by simp [hc]))
    (by
      intro c hc
      have hcb : b = c := by simpa using hc
      subst hcb
      exact alpha_not_space (ha3 b (by simp)))
  have ht1 : takeWord ((a :: a' :: w1'') ++ ((s :: sp') ++ ((b :: b' :: w2'') ++ post)))
      = some (a :: a' :: w1'', (s :: sp') ++ ((b :: b' :: w2'') ++ post)) := by
    have e1 : (a :: a' :: w1'') ++ ((s :: sp') ++ ((b :: b' :: w2'') ++ post))
        = a :: ((a' :: w1'') ++ ((s :: sp') ++ ((b :: b' :: w2'') ++ post))) := rfl
    rw [e1]
    simp only [takeWord]
    rw [if_pos (ha1 a (by simp)), hrun1.1, hrun1.2, if_neg (by simp)]
  have ht2 : takeSpaces ((s :: sp') ++ ((b :: b' :: w2'') ++ post))
      = some (s :: sp', (b :: b' :: w2'') ++ post) := by
    have e2 : (s :: sp') ++ ((b :: b' :: w2'') ++ post)
        = s :: (sp' ++ ((b :: b' :: w2'') ++ post)) := rfl
    rw [e2]
    simp only [takeSpaces]
    rw [if_pos (hsp s (by simp)), hrun2.1, hrun2.2]
  have ht3 : takeWord ((b :: b' :: w2'') ++ post)
      = some (b :: (b' :: (w2'' ++ post)).takeWhile (fun d => d.isAlpha),
          (b' :: (w2'' ++ post)).dropWhile (fun d => d.isAlpha)) := by
    have e3 : (b :: b' :: w2'') ++ post = b :: b' :: (w2'' ++ post) := rfl
    rw [e3]
    simp only [takeWord]
    rw [if_pos (ha3 b (by simp))]
    rw [if_neg (by rw [List.takeWhile_cons, if_pos (ha3 b' (by simp))]; simp)]
  intro hcon
  unfold matchP2At at hcon
  rw [ht1] at hcon
  dsimp only at hcon
  rw [ht2] at hcon
  dsimp only at hcon
  rw [ht3] at hcon
  dsimp only at hcon
  exact absurd hcon (by simp)

theorem searchName_none_iff (p : List Char → Option (List Char)) :
    ∀ l, searchName p l = none ↔ ∀ pre t, l = pre ++ t → p t = none := by
  intro l
  induction l with
  | nil =>
    simp only [searchName]
    constructor
    · intro h pre t ht
      obtain ⟨rfl, rfl⟩ : pre = [] ∧ t = [] := by
        have := ht.symm
        simpa [List.append_eq_nil] using this
      exact h
    · intro h
      exact h [] [] rfl
  | cons c l ih =>
    constructor
    · intro h pre t ht
      rcases hp : p (c :: l) with _ | g
      · have h' : searchName p l = none := by
          simpa [searchName, hp] using h
        cases pre with
        | nil =>
          have : t = c :: l := by simpa using ht.symm
          rw [this]
          exact hp
        | cons a pre' =>
          have ht' : l = pre' ++ t := by
            have := ht
            simp only [List.cons_append, List.cons.injEq] at this
            exact this.2
          exact (ih.mp h') pre' t ht'
      · simp [searchName, hp] at h
    · intro h
      have hp : p (c :: l) = none := h [] (c :: l) rfl
      have h2 : searchName p l = none :=
        ih.mpr (fun pre t ht => h (c :: pre) t (by simp [ht]))
      simp [searchName, hp, h2]

theorem extract_name_none_iff (text : List Char) :
    extract_name text = none ↔ ¬ HasWordPair text := by
  constructor
  · intro h hpair
    have hs2 : searchName matchP2At text = none := by
      rcases h1 : searchName matchP1At text with _ | g
      · rcases h2 : searchName matchP2At text with _ | g2
        · exact h2 ▸ rfl
        · simp [extract_name, h1, h2] at h
      · simp [extract_name, h1] at h
    obtain ⟨pre, w1, sp, w2, post, heq, hl1, ha1, hl2, hsp, hl3, ha3⟩ := hpair
    have hnone := (searchName_none_iff matchP2At text).mp hs2 pre
      (w1 ++ sp ++ w2 ++ post) (by rw [heq]; simp [List.append_assoc])
    exact matchP2At_complete w1 sp w2 post hl1 ha1 hl2 hsp hl3 ha3 hnone
  · intro hnp
    have h1 : searchName matchP1At text = none := by
      rw [searchName_none_iff]
      intro pre t ht
      rcases hm : matchP1At t with _ | g
      · rfl
      · exfalso
        apply hnp
        obtain ⟨pre0, w1, sp, w2, post, heq, p1, p2, p3, p4, p5, p6⟩ := matchP1At_sound hm
        exact ⟨pre ++ pre0, w1, sp, w2, post,
          by rw [ht, heq]; simp [List.append_assoc], p1, p2, p3, p4, p5, p6⟩
    have h2 : searchName matchP2At text = none := by
      rw [searchName_none_iff]
      intro pre t ht
      rcases hm : matchP2At t with _ | g
      · rfl
      · exfalso
        apply hnp
        obtain ⟨w1, sp, w2, post, heq, p1, p2, p3, p4, p5, p6⟩ := matchP2At_sound hm
        exact ⟨pre, w1, sp, w2, post, by rw [ht, heq]; simp [List.append_assoc],
          p1, p2, p3, p4, p5, p6⟩
    simp [extract_name, h1, h2]

theorem validatorHandle_fst (m : Envelope) : (validatorHandle m).1 = validate m := by
  unfold validatorHandle
  dsimp only
  split <;> rfl

theorem enricherHandle_fst (lk : LookupOutcome) (m : Envelope) :
    (enricherHandle lk m).1 = enrich lk m := by
  unfold enricherHandle
  dsimp only
  split
  · rfl
  · split <;> rfl

theorem drop_append_self {α : Type} (l1 l2 : List α) : (l1 ++ l2).drop l1.length = l2 := by
  rw [drop_append_le l1 l2 _ (le_refl _)]
  simp

theorem validate_errors (m : Envelope) :
    (validate m).errors = m.errors ++
      (if (runChecks m.content).is_valid then []
       else (runChecks m.content).issues_found.map
         (fun issue => chars "validation:" ++ issue)) := by
  by_cases h : (runChecks m.content).is_valid = true
  · simp [validate, h]
  · simp [validate, h]

theorem extractorHandle_eq (m : Envelope) :
    (extract_email m.content = none →
      extractorHandle m =
        ({ process m with errors := (process m).errors ++ [chars "No email address found"] },
         chars "com.learning.message.extraction-incomplete")) ∧
    (∀ e, extract_email m.content = some e →
      extractorHandle m = (process m, chars "com.learning.message.extracted")) := by
  constructor
  · intro hem
    unfold extractorHandle
    dsimp only
    have hb : (process m).extracted_data.bind ExtractedData.email = none := by
      simp [process, hem]
    rw [hb]
  · intro e hem
    unfold extractorHandle
    dsimp only
    have hb : (process m).extracted_data.bind ExtractedData.email = some e := by
      simp [process, hem]
    rw [hb]

theorem enricherHandle_cases (lk : LookupOutcome) (m : Envelope) :
    (∃ msg, chars "enrichment:" <+: msg ∧
      (enrich lk m).errors = m.errors ++ [msg] ∧
      enricherHandle lk m = (enrich lk m, chars "com.learning.message.enrichment-failed")) ∨
    ((enrich lk m).errors = m.errors ∧
      (∃ r, (enrich lk m).customer_data = some (CustomerData.known r)) ∧
      enricherHandle lk m = (enrich lk m, chars "com.learning.message.enriched")) := by
  rcases hem : m.extracted_data.bind ExtractedData.email with _ | em
  · left
    have he : enrich lk m =
        { m with errors := m.errors ++ [chars "enrichment:no-email"],
                 customer_data := some CustomerData.unknownCustomer } := by
      unfold enrich
      rw [hem]
    refine ⟨chars "enrichment:no-email", ⟨chars "no-email", by decide⟩, by rw [he], ?_⟩
    unfold enricherHandle
    dsimp only
    rw [if_pos (by rw [he]; simp)]
  · rcases lk with r | _ | e
    · right
      have he : enrich (LookupOutcome.found r) m =
          { m with customer_data := some (CustomerData.known r),
                   processing_stage := chars "enriched" } := by
        unfold enrich
        rw [hem]
      refine ⟨by rw [he], ⟨r, by rw [he]⟩, ?_⟩
      unfold enricherHandle
      dsimp only
      rw [if_neg (by rw [he]; simp), if_pos (by rw [he]; simp [CustomerData.is_known_customer])]
    · left
      have he : enrich LookupOutcome.notFound m =
          { m with customer_data := some CustomerData.unknownCustomer,
                   errors := m.errors ++ [chars "enrichment:customer-not-found:" ++ em],
                   processing_stage := chars "enriched" } := by
        unfold enrich
        rw [hem]
      refine ⟨chars "enrichment:customer-not-found:" ++ em,
        ⟨chars "customer-not-found:" ++ em,
          by rw [← List.append_assoc,
            show chars "enrichment:" ++ chars "customer-not-found:"
              = chars "enrichment:customer-not-found:" from by decide]⟩,
        by rw [he], ?_⟩
      unfold enricherHandle
      dsimp only
      rw [if_pos (by rw [he]; simp)]
    · left
      have he : enrich (LookupOutcome.dbError e) m =
          { m with errors := m.errors ++ [chars "enrichment:database-error:" ++ e],
                   customer_data := some CustomerData.unknownCustomer,
                   processing_stage := chars "enriched" } := by
        unfold enrich
        rw [hem]
      refine ⟨chars "enrichment:database-error:" ++ e,
        ⟨chars "database-error:" ++ e,
          by rw [← List.append_assoc,
            show chars "enrichment:" ++ chars "database-error:"
              = chars "enrichment:database-error:" from by decide]⟩,
        by rw [he], ?_⟩
      unfold enricherHandle
      dsimp only
      rw [if_pos (by rw [he]; simp)]

/-- C10: the enricher's "unknown-customer" outgoing label is unreachable:
whatever the lookup outcome, the handler never selects it; and whenever no
error entry was appended, the customer data is a known record and the
label is "enriched". -/
theorem enricher_unknown_unreachable (m : Envelope) (lk : LookupOutcome) :
    (enricherHandle lk m).2 ≠ chars "com.learning.message.unknown-customer" ∧
    ((enricherHandle lk m).1.errors.length = m.errors.length →
      (∃ r, (enricherHandle lk m).1.customer_data = some (CustomerData.known r)) ∧
      (enricherHandle lk m).2 = chars "com.learning.message.enriched") := by
  rcases enricherHandle_cases lk m with ⟨msg, _, herr, heq⟩ | ⟨herr, ⟨r, hknown⟩, heq⟩
  · constructor
    · rw [heq]
      exact (by decide : chars "com.learning.message.enrichment-failed" ≠
        chars "com.learning.message.unknown-customer")
    · intro hlen
      exfalso
      rw [heq] at hlen
      dsimp only at hlen
      rw [herr] at hlen
      simp at hlen
  · constructor
    · rw [heq]
      exact (by decide : chars "com.learning.message.enriched" ≠
        chars "com.learning.message.unknown-customer")
    · intro _
      exact ⟨⟨r, by rw [heq]; exact hknown⟩, by rw [heq]⟩

/-- Witness for C10 at a concrete envelope and a successful lookup. -/
theorem enricher_unknown_unreachable_witness :
    (∃ r, (enricherHandle (LookupOutcome.found sampleRecord) emailedEnvelope).1.customer_data
        = some (CustomerData.known r)) ∧
    (enricherHandle (LookupOutcome.found sampleRecord) emailedEnvelope).2
      = chars "com.learning.message.enriched" :=
  (enricher_unknown_unreachable emailedEnvelope (LookupOutcome.found sampleRecord)).2 (by decide)

/-- C1: for the validator, extractor and enricher the outgoing CloudEvent
type is the stage's failed/incomplete label exactly when the error count
grew during the call, and the success label otherwise; the router leaves
`errors` untouched and derives its label solely from the routing result's
category. -/
theorem stage_label_policy (m : Envelope) (lk : LookupOutcome) :
    ((validatorHandle m).2 =
      if m.errors.length < (validatorHandle m).1.errors.length
      then chars "com.learning.message.validation-failed"
      else chars "com.learning.message.validated") ∧
    ((extractorHandle m).2 =
      if m.errors.length < (extractorHandle m).1.errors.length
      then chars "com.learning.message.extraction-incomplete"
      else chars "com.learning.message.extracted") ∧
    ((enricherHandle lk m).2 =
      if m.errors.length < (enricherHandle lk m).1.errors.length
      then chars "com.learning.message.enrichment-failed"
      else chars "com.learning.message.enriched") ∧
    (routerHandle m).1.errors = m.errors ∧
    (routerHandle m).2 = labelOfCategory (categoryOf (routerHandle m).1) := by
  refine ⟨?_, ?_, ?_, rfl, rfl⟩
  · rw [validatorHandle_fst]
    by_cases h : m.errors.length < (validate m).errors.length
    · rw [if_pos h]
      unfold validatorHandle
      dsimp only
      rw [if_pos h]
    · rw [if_neg h]
      unfold validatorHandle
      dsimp only
      rw [if_neg h]
  · rcases hem : extract_email m.content with _ | e
    · rw [(extractorHandle_eq m).1 hem]
      dsimp only
      rw [if_pos (by simp [process])]
    · rw [(extractorHandle_eq m).2 e hem]
      dsimp only
      rw [if_neg (by simp [process])]
  · rcases enricherHandle_cases lk m with ⟨msg, _, herr, heq⟩ | ⟨herr, _, heq⟩
    · rw [heq]
      dsimp only
      rw [herr, if_pos (by simp)]
    · rw [heq]
      dsimp only
      rw [herr, if_neg (by simp)]

/-- C5: every stage handler only appends to `errors`: the incoming list is
an exact prefix of the outgoing list. -/
theorem errors_append_only (m : Envelope) (lk : LookupOutcome) :
    m.errors <+: (validatorHandle m).1.errors ∧
    m.errors <+: (extractorHandle m).1.errors ∧
    m.errors <+: (enricherHandle lk m).1.errors ∧
    m.errors <+: (routerHandle m).1.errors := by
  refine ⟨?_, ?_, ?_, ?_⟩
  · rw [validatorHandle_fst, validate_errors]
    exact ⟨_, rfl⟩
  · rcases hem : extract_email m.content with _ | e
    · rw [(extractorHandle_eq m).1 hem]
      exact ⟨[chars "No email address found"], rfl⟩
    · rw [(extractorHandle_eq m).2 e hem]
      exact ⟨[], List.append_nil _⟩
  · rcases enricherHandle_cases lk m with ⟨msg, _, herr, heq⟩ | ⟨herr, _, heq⟩
    · rw [heq]
      exact ⟨[msg], herr.symm⟩
    · rw [heq]
      exact ⟨[], by rw [List.append_nil]; exact herr.symm⟩
  · exact ⟨[], List.append_nil _⟩

/-- C8 (amended): the validator's new error entries all carry the
`validation:` prefix and the enricher's all carry the `enrichment:`
prefix, but the extractor's sole error entry is the bare string
"No email address found" with no namespace prefix; the router appends
nothing. -/
theorem error_namespace_amended (m : Envelope) (lk : LookupOutcome) :
    (∀ e ∈ (validatorHandle m).1.errors.drop m.errors.length,
      chars "validation:" <+: e) ∧
    (∀ e ∈ (enricherHandle lk m).1.errors.drop m.errors.length,
      chars "enrichment:" <+: e) ∧
    (∀ e ∈ (extractorHandle m).1.errors.drop m.errors.length,
      e = chars "No email address found") ∧
    (routerHandle m).1.errors.drop m.errors.length = [] := by
  refine ⟨?_, ?_, ?_, ?_⟩
  · intro e he
    rw [validatorHandle_fst, validate_errors, drop_append_self] at he
    by_cases h : (runChecks m.content).is_valid = true
    · rw [if_pos h] at he
      simp at he
    · rw [if_neg h] at he
      obtain ⟨issue, _, rfl⟩ := List.mem_map.mp he
      exact ⟨issue, rfl⟩
  · intro e he
    rcases enricherHandle_cases lk m with ⟨msg, hp, herr, heq⟩ | ⟨herr, _, heq⟩
    · rw [heq] at he
      dsimp only at he
      rw [herr, drop_append_self] at he
      have heM : e = msg := by simpa using he
      rw [heM]
      exact hp
    · rw [heq] at he
      dsimp only at he
      rw [herr, List.drop_length] at he
      simp at he
  · intro e he
    rcases hem : extract_email m.content with _ | em
    · rw [(extractorHandle_eq m).1 hem] at he
      dsimp only at he
      rw [show (process m).errors = m.errors from rfl, drop_append_self] at he
      simpa using he
    · rw [(extractorHandle_eq m).2 em hem] at he
      dsimp only at he
      rw [show (process m).errors = m.errors from rfl, List.drop_length] at he
      simp at he
  · show m.errors.drop m.errors.length = []
    exact List.drop_length m.errors

/-- Witness for the amended C8 at a concrete envelope. -/
theorem error_namespace_amended_witness :
    chars "validation:" <+:
      chars "validation:Message too short (minimum 10 characters)" :=
  (error_namespace_amended shortEnvelope LookupOutcome.notFound).1
    (chars "validation:Message too short (minimum 10 characters)") (by decide)

/-- C8 counterexample: on a no-email envelope the extractor handler
appends exactly the entry "No email address found", which contains no `:`
at all and hence no stage namespace prefix. -/
theorem extractor_error_unprefixed :
    (extractorHandle noEmailEnvelope).1.errors = [chars "No email address found"] ∧
    ':' ∉ chars "No email address found" :=
  ⟨by decide, by decide⟩

/-- C9 (amended): name extraction tries the introduction-phrase pattern
first and then the bare two-word pattern, both case-insensitively (the
source compiles them with `re.IGNORECASE`), title-casing the match; the
result is `None` exactly when the content has no two adjacent alphabetic
words of at least two letters each; the claim's concrete example still
holds. -/
theorem extract_name_spec (text : List Char) :
    (extract_name text = none ↔ ¬ HasWordPair text) ∧
    extract_name (chars "My name is John Doe, email john@example.com") =
      some (chars "John Doe") :=
  ⟨extract_name_none_iff text, by decide⟩

/-- Witness for C9 at a concrete content string. -/
theorem extract_name_spec_witness :
    extract_name (chars "My name is John Doe, email john@example.com") =
      some (chars "John Doe") :=
  (extract_name_spec []).2

/-- C9 counterexample: "hello there" contains no uppercase character (so
no capitalized phrase) and no introduction phrase, yet the extractor
returns "Hello There" rather than the null the claim predicts, because
the patterns are matched case-insensitively. -/
theorem name_case_counterexample :
    extract_name (chars "hello there") = some (chars "Hello There") ∧
    (∀ c ∈ chars "hello there", c.isUpper = false) ∧
    containsSub (chars "my name is") (toLowerList (chars "hello there")) = false ∧
    containsSub (chars "i am") (toLowerList (chars "hello there")) = false ∧
    containsSub (chars "this is") (toLowerList (chars "hello there")) = false :=
  ⟨by decide, by decide, by decide, by decide, by decide⟩

end Pipeline
